import Mathlib

/-!
Verification of the FastCGI client library (package `fastcgi`).

Shallow embedding of the record codec (`fcgi.go`), the ID pool (`id.go`),
the request writer (`client.go` / `writeRequest`) and the CGI response
parser (`client.go` / `ResponsePipe.writeResponse`).

Conventions of the embedding:
  * Go machine integers are `Nat` with explicit `% 2 ^ w` at the points
    where Go performs a conversion (`uint8(..)`, `uint16(..)`, `uint32(..)`);
  * byte slices are `List Nat` (each element a byte value);
  * Go strings handled by the CGI parser are `List Char`; theorems that
    depend on byte positions carry an ASCII hypothesis, under which Go's
    byte indexing and the rune list coincide;
  * functions that write to an `io.Writer` instead return the list of bytes
    (or the list of records) they would emit;
  * fallible functions return `Except`.
-/

set_option maxRecDepth 8000

namespace FastCgi

/-! ## Constants (`constant.go`) -/

/-- FCGI_BEGIN_REQUEST (`typeBeginRequest recType = 1`). -/
def typeBeginRequest : Nat := 1

/-- FCGI_ABORT_REQUEST (`typeAbortRequest recType = 2`). -/
def typeAbortRequest : Nat := 2

/-- FCGI_END_REQUEST (`typeEndRequest recType = 3`). -/
def typeEndRequest : Nat := 3

/-- FCGI_PARAMS (`typeParams recType = 4`). -/
def typeParams : Nat := 4

/-- FCGI_STDIN (`typeStdin recType = 5`). -/
def typeStdin : Nat := 5

/-- maximum record body (`maxWrite = 65535`). -/
def maxWrite : Nat := 65535

/-- maximum padding (`maxPad = 255`). -/
def maxPad : Nat := 255

/-! ## Record header (`fcgi.go`, `header` and its `init`) -/

/-- The 8-byte FastCGI record header (`type header struct`).  The Go field
`Type` is called `RecType` here because `Type` is a Lean keyword. -/
structure Header where
  Version : Nat
  RecType : Nat
  ID : Nat
  ContentLength : Nat
  PaddingLength : Nat
  Reserved : Nat
deriving DecidableEq, Repr

/-- Go's `uint8(-contentLength & 7)` from `header.init`: two's-complement
negation of the 64-bit `int` followed by `& 7`.  The final `uint8`
conversion is the identity because the value is below 8. -/
def padLen (contentLength : Nat) : Nat :=
  (2 ^ 64 - contentLength % 2 ^ 64) % 2 ^ 64 &&& 7

/-- `header.init(recType, reqID, contentLength)`: `Version = 1`, the type and
id stored through their Go types (`uint8`, `uint16`), `ContentLength`
truncated by `uint16(contentLength)`, `PaddingLength = uint8(-contentLength & 7)`.
`Reserved` stays at the zero value. -/
def headerInit (recType reqID contentLength : Nat) : Header :=
  { Version := 1
    RecType := recType % 256
    ID := reqID % 65536
    ContentLength := contentLength % 65536
    PaddingLength := padLen contentLength
    Reserved := 0 }

/-- The 8 bytes `binary.Write(.., binary.BigEndian, h)` emits for a header:
each `uint8` field as one byte, each `uint16` field big-endian. -/
def headerBytes (h : Header) : List Nat :=
  [h.Version % 256, h.RecType % 256,
   h.ID / 256 % 256, h.ID % 256,
   h.ContentLength / 256 % 256, h.ContentLength % 256,
   h.PaddingLength % 256, h.Reserved % 256]

/-- `conn.writeRecord(recType, reqID, b)`: the bytes put on the wire — the
8 header bytes, the body, then `PaddingLength` bytes of the zero-valued
`pad` array. -/
def writeRecord (recType reqID : Nat) (b : List Nat) : List Nat :=
  headerBytes (headerInit recType reqID b.length) ++ b ++
    List.replicate (headerInit recType reqID b.length).PaddingLength 0

/-! ## Name/value size codec (`fcgi.go`, `encodeSize` / `readSize`) -/

/-- `encodeSize(b, size)` for `size : uint32`: one byte when `size ≤ 127`,
otherwise `size |= 1 << 31` and 4 bytes big-endian
(`binary.BigEndian.PutUint32`).  The bytes written are returned. -/
def encodeSize (size : Nat) : List Nat :=
  if 127 < size then
    let s := size ||| 1 <<< 31
    [s >>> 24 % 256, s >>> 16 % 256, s >>> 8 % 256, s % 256]
  else
    [size % 256]

/-- `readSize(s)`: empty input gives `(0, 0)`; a first byte with the top bit
clear is the size itself, consumed 1; otherwise 4 bytes are required (else
`(0, 0)`), decoded big-endian (`binary.BigEndian.Uint32`) and bit 31 is
cleared (`size &^= 1 << 31`, which on a `uint32` is `&&& (2 ^ 31 - 1)`). -/
def readSize (s : List Nat) : Nat × Nat :=
  match s with
  | [] => (0, 0)
  | b0 :: rest =>
    if b0 &&& 1 <<< 7 ≠ 0 then
      match rest with
      | b1 :: b2 :: b3 :: _ =>
        ((b3 ||| b2 <<< 8 ||| b1 <<< 16 ||| b0 <<< 24) &&& (2 ^ 31 - 1), 4)
      | _ => (0, 0)
    else
      (b0, 1)

/-! ## ID pool (`id.go`, `newIDs`) -/

/-- The clamp at the top of `newIDs`: `if limit == 0 || limit > 65536 { limit = 65536 }`. -/
def clampLimit (limit : Nat) : Nat :=
  if limit = 0 ∨ 65536 < limit then 65536 else limit

/-- The request IDs `newIDs(limit)` feeds into the pool's channel, in order:
the goroutine sends `0, 1, …, maxID-1` and finally `maxID`, where
`maxID = uint16(limit - 1)` after the clamp — that is, `0 … limit-1`. -/
def idPoolIDs (limit : Nat) : List Nat :=
  List.range ((clampLimit limit - 1) % 65536 + 1)

/-! ## Stream writer (`fcgi.go`, `streamWriter` / `newWriter` / `bufWriter`) -/

/-- The loop of `streamWriter.Write(p)`: while bytes remain, carve off at
most `maxWrite` of them and emit each slice as one record body. -/
def chunksOf (p : List Nat) : List (List Nat) :=
  if h : p = [] then []
  else p.take maxWrite :: chunksOf (p.drop maxWrite)
termination_by p.length
decreasing_by
  simp only [List.length_drop, maxWrite]
  have := List.length_pos.mpr h
  omega

/-- One `bufio.Writer.Write(p)` call on the `bufWriter` returned by
`newWriter` (buffer capacity `maxWrite`, underlying writer the
`streamWriter`).  `buf` is the buffered data; the result is (record bodies
emitted, new buffered data).  Mirrors `bufio.Writer.Write`: while
`len(p) > Available()`, either write `p` straight through the
`streamWriter` when the buffer is empty, or fill the buffer, flush it as
one record, and continue with an empty buffer; the remainder is copied
into the buffer. -/
def bufioWrite (buf p : List Nat) : List (List Nat) × List Nat :=
  if p.length ≤ maxWrite - buf.length then
    ([], buf ++ p)
  else if buf.length = 0 then
    (chunksOf p, [])
  else
    let n := maxWrite - buf.length
    let rest := p.drop n
    if rest.length ≤ maxWrite then ([buf ++ p.take n], rest)
    else ((buf ++ p.take n) :: chunksOf rest, [])

/-- `bufWriter.Close`: `Flush` emits the buffered bytes (when any) as one
record body, then `streamWriter.Close` emits the empty terminator record. -/
def bufWriterClose (buf : List Nat) : List (List Nat) :=
  (if buf.length = 0 then [] else [buf]) ++ [[]]

/-- A sequence of `Write` calls on the buffered stream writer, starting from
buffered data `buf`: (record bodies emitted, final buffered data). -/
def runWrites : List (List Nat) → List Nat → List (List Nat) × List Nat
  | [], buf => ([], buf)
  | w :: ws, buf =>
    let s := bufioWrite buf w
    let t := runWrites ws s.2
    (s.1 ++ t.1, t.2)

/-- All record bodies emitted by pushing `writes` through a fresh buffered
stream writer and then closing it. -/
def writerRun (writes : List (List Nat)) : List (List Nat) :=
  (runWrites writes []).1 ++ bufWriterClose (runWrites writes []).2

/-- The records on the wire for those bodies, all written through
`conn.writeRecord` with the stream writer's fixed `(recType, reqID)`. -/
def streamRecords (recType reqID : Nat) (writes : List (List Nat)) : List (List Nat) :=
  (writerRun writes).map (writeRecord recType reqID)

/-- Type byte of an encoded record (offset 1 of the header). -/
def recHeaderType : List Nat → Nat
  | _ :: t :: _ => t
  | _ => 0

/-- Request id of an encoded record (big-endian bytes at offsets 2, 3). -/
def recHeaderId : List Nat → Nat
  | _ :: _ :: hi :: lo :: _ => hi * 256 + lo
  | _ => 0

/-- Content length of an encoded record (big-endian bytes at offsets 4, 5). -/
def recContentLen : List Nat → Nat
  | _ :: _ :: _ :: _ :: hi :: lo :: _ => hi * 256 + lo
  | _ => 0

/-! ## BeginRequest (`fcgi.go` `writeBeginRequest`, `client.go` `writeRequest`) -/

/-- The fields of `Request` that `writeRequest` can see (`client.go`). -/
structure Request where
  Role : Nat
  KeepConn : Bool

/-- The 8-byte body `conn.writeBeginRequest` builds:
`[8]byte{byte(role >> 8), byte(role), flags & 1}` — the five missing
entries are zero. -/
def beginRequestBody (role flags : Nat) : List Nat :=
  [role / 256 % 256, role % 256, flags &&& 1, 0, 0, 0, 0, 0]

/-- The BeginRequest record `client.writeRequest` emits:
`c.conn.writeBeginRequest(reqID, uint16(req.Role), 1)` — the flags
argument is the constant 1, whatever `req.KeepConn` holds. -/
def writeRequestBegin (req : Request) (reqID : Nat) : List Nat :=
  writeRecord typeBeginRequest reqID (beginRequestBody (req.Role % 65536) 1)

/-! ## Record reading (`fcgi.go`, `record.read` / `record.content`) -/

/-- Errors of `record.read`: an I/O error of `binary.Read` / `io.ReadFull`
(the input ends early), or the version check failing. -/
inductive RecReadErr where
  | shortRead
  | invalidVersion
deriving DecidableEq, Repr

/-- `binary.Read(r, binary.BigEndian, &rec.h)`: decode the 8 header bytes
(u16 fields big-endian), returning the header and the rest of the input. -/
def parseHeader (input : List Nat) : Option (Header × List Nat) :=
  match input with
  | b0 :: b1 :: b2 :: b3 :: b4 :: b5 :: b6 :: b7 :: rest =>
    some (⟨b0, b1, b2 * 256 + b3, b4 * 256 + b5, b6, b7⟩, rest)
  | _ => none

/-- `record.read(r)` followed by `record.content()`: decode the header,
require `Version == 1`, read `ContentLength + PaddingLength` bytes into the
scratch buffer, and expose the first `ContentLength` of them.  The result is
(header, content, input left after the padding). -/
def recordRead (input : List Nat) :
    Except RecReadErr (Header × List Nat × List Nat) :=
  match parseHeader input with
  | none => .error .shortRead
  | some (h, rest) =>
    if h.Version ≠ 1 then .error .invalidVersion
    else
      if rest.length < h.ContentLength + h.PaddingLength then .error .shortRead
      else .ok (h, rest.take h.ContentLength,
        rest.drop (h.ContentLength + h.PaddingLength))

/-! ## CGI response parser (`client.go`, `ResponsePipe.writeResponse`)

Go strings are modelled as rune lists (`List Char`); theorems whose claims
depend on byte positions carry an ASCII hypothesis, under which Go's byte
view and the rune list coincide. -/

/-- Whitespace as `strings.TrimSpace` (that is, `unicode.IsSpace`) sees it. -/
def isGoSpace (c : Char) : Bool :=
  decide ((9 ≤ c.toNat ∧ c.toNat ≤ 13) ∨ c.toNat = 32 ∨ c.toNat = 133 ∨
    c.toNat = 160 ∨ c.toNat = 5760 ∨ (8192 ≤ c.toNat ∧ c.toNat ≤ 8202) ∨
    c.toNat = 8232 ∨ c.toNat = 8233 ∨ c.toNat = 8239 ∨ c.toNat = 8287 ∨
    c.toNat = 12288)

/-- `strings.TrimSpace`: drop whitespace from both ends. -/
def trimSpace (s : List Char) : List Char :=
  ((s.dropWhile isGoSpace).reverse.dropWhile isGoSpace).reverse

/-- `strings.SplitN(line, ":", 2)`: `none` when the line has no `:` (the
parts slice has length 1), otherwise the text before and after the first
`:`. -/
def splitFirstColon : List Char → Option (List Char × List Char)
  | [] => none
  | c :: rest =>
    if c = ':' then some ([], rest)
    else
      match splitFirstColon rest with
      | none => none
      | some (a, b) => some (c :: a, b)

/-- `strconv.Atoi`: an optional sign followed by at least one decimal digit
and nothing else; `none` models the error return. -/
def goAtoi (s : List Char) : Option Int :=
  let signed : Bool × List Char :=
    match s with
    | '-' :: rest => (true, rest)
    | '+' :: rest => (false, rest)
    | _ => (false, s)
  if signed.2 = [] then none
  else if signed.2.all (fun c => decide ('0' ≤ c ∧ c ≤ '9')) then
    let n : Nat := signed.2.foldl (fun acc c => acc * 10 + (c.toNat - 48)) 0
    some (if signed.1 then -(n : Int) else (n : Int))
  else none

/-- `textproto` token bytes (`validHeaderFieldByte`): digits, letters and
the RFC 7230 tchar punctuation. -/
def validHeaderFieldChar (c : Char) : Bool :=
  decide ((48 ≤ c.toNat ∧ c.toNat ≤ 57) ∨ (65 ≤ c.toNat ∧ c.toNat ≤ 90) ∨
    (97 ≤ c.toNat ∧ c.toNat ≤ 122) ∨ c.toNat = 33 ∨
    (35 ≤ c.toNat ∧ c.toNat ≤ 39) ∨ c.toNat = 42 ∨ c.toNat = 43 ∨
    c.toNat = 45 ∨ c.toNat = 46 ∨ c.toNat = 94 ∨ c.toNat = 95 ∨
    c.toNat = 96 ∨ c.toNat = 124 ∨ c.toNat = 126)

/-- ASCII uppercase step of `CanonicalMIMEHeaderKey`. -/
def toUpperAscii (c : Char) : Char :=
  if 'a' ≤ c ∧ c ≤ 'z' then Char.ofNat (c.toNat - 32) else c

/-- ASCII lowercase step of `CanonicalMIMEHeaderKey`. -/
def toLowerAscii (c : Char) : Char :=
  if 'A' ≤ c ∧ c ≤ 'Z' then Char.ofNat (c.toNat + 32) else c

/-- The case-mapping loop of `CanonicalMIMEHeaderKey`: uppercase the first
letter and each letter after a hyphen, lowercase the rest. -/
def canonAux : Bool → List Char → List Char
  | _, [] => []
  | upper, c :: rest =>
    let d := if upper then toUpperAscii c else toLowerAscii c
    d :: canonAux (d == '-') rest

/-- `textproto.CanonicalMIMEHeaderKey`: a key with any non-token byte is
returned unchanged, otherwise it is canonicalized. -/
def canonicalKey (s : List Char) : List Char :=
  if s.any (fun c => ! validHeaderFieldChar c) then s else canonAux true s

/-- `http.Header.Add` (via `textproto.MIMEHeader.Add`): append the value to
the canonical key's list, keeping insertion order of distinct keys.  (Go
stores the headers in a map whose iteration order is unspecified; the order
of distinct keys in this list carries no meaning.) -/
def headerAdd : List (List Char × List (List Char)) → List Char → List Char →
    List (List Char × List (List Char))
  | [], key, val => [(canonicalKey key, [val])]
  | (k, vs) :: t, key, val =>
    if k = canonicalKey key then (k, vs ++ [val]) :: t
    else (k, vs) :: headerAdd t key val

/-- `http.Header.Get`: the first value stored under the canonical key, or
the empty string. -/
def headerGet : List (List Char × List (List Char)) → List Char → List Char
  | [], _ => []
  | (k, vs) :: t, key =>
    if k = canonicalKey key then
      match vs with
      | [] => []
      | v :: _ => v
    else headerGet t key

/-- The header name `"Status"` (compared case-sensitively in the source). -/
def statusKey : List Char := "Status".toList

/-- The header name `"Location"`. -/
def locationKey : List Char := "Location".toList

/-- The header name `"Content-Type"`. -/
def contentTypeKey : List Char := "Content-Type".toList

/-- The loop state of `writeResponse`: `statusCode` (0 = unset), the
accumulated `headers`, `headerLines` and `sawBlankLine`. -/
structure HState where
  statusCode : Int
  headers : List (List Char × List (List Char))
  headerLines : Nat
  sawBlankLine : Bool
deriving DecidableEq, Repr

/-- The state at the top of `writeResponse`. -/
def initHState : HState := ⟨0, [], 0, false⟩

/-- The errors `writeResponse` returns (their `fmt.Errorf` strings elided). -/
inductive CgiError where
  | LongHeaderLine
  | BogusHeader
  | BogusStatusShort
  | BogusStatus
  | NoHeaders
  | MissingContentType
deriving DecidableEq, Repr

/-- What `writeResponse` does to its sink: `ok status headers body` when the
headers and status are committed and the body copied, or `fail sink e` when
it returns error `e` after writing status `sink` (if any). -/
inductive CgiResult where
  | ok (status : Int) (headers : List (List Char × List (List Char)))
      (body : List Char)
  | fail (sink : Option Nat) (e : CgiError)
deriving DecidableEq, Repr

/-- One `linebody.ReadLine()` on the remaining stream (buffer size 1024):
end of input, an overlong line (`isPrefix`), or a line plus the rest. -/
inductive ReadLineRes where
  | eof
  | longLine
  | line (l rest : List Char)
deriving DecidableEq, Repr

/-- ReadLine strips a `"\r\n"` terminator down to the bare line. -/
def dropTrailingCR (l : List Char) : List Char :=
  if l.getLast? = some '\r' then l.dropLast else l

/-- `bufio.Reader.ReadLine` over a pure stream: `eof` on empty input;
`longLine` when the first 1024 bytes hold no newline; otherwise the line up
to (not including) the first newline with a preceding `'\r'` dropped, or —
at end of input without a newline — the remaining bytes unchanged. -/
def goReadLine (s : List Char) : ReadLineRes :=
  if s = [] then .eof
  else
    let pre := s.takeWhile (fun c => c != '\n')
    if 1024 ≤ pre.length then .longLine
    else if pre.length = s.length then .line pre []
    else .line (dropTrailingCR pre) (s.drop (pre.length + 1))

/-- One non-blank header line of the `writeResponse` loop (`headerLines++`,
split on the first `:`, trim, then either the `Status` case or
`headers.Add`). -/
def lineStep (line : List Char) (st : HState) : Except CgiError HState :=
  let st1 : HState := { st with headerLines := st.headerLines + 1 }
  match splitFirstColon line with
  | none => .error .BogusHeader
  | some (rawName, rawVal) =>
    let name := trimSpace rawName
    let val := trimSpace rawVal
    if name = statusKey then
      if val.length < 3 then .error .BogusStatusShort
      else
        match goAtoi (val.take 3) with
        | none => .error .BogusStatus
        | some code => .ok { st1 with statusCode := code }
    else .ok { st1 with headers := headerAdd st1.headers name val }

/-- Outcome of the header-reading loop: an error (with the sink status
written before returning, if any), or the loop left normally with the state
and the unread rest of the stream. -/
inductive HeadResult where
  | fail (sink : Option Nat) (e : CgiError)
  | done (st : HState) (rest : List Char)
deriving DecidableEq, Repr

/-- The header-reading loop of `writeResponse`: read a line; an overlong
line is a 500 + `LongHeaderLine`; EOF leaves the loop; a blank line sets
`sawBlankLine` and leaves the loop; other lines go through `lineStep`,
whose error returns without writing a status. -/
def headerPhase (s : List Char) (st : HState) : HeadResult :=
  match hrl : goReadLine s with
  | .eof => .done st s
  | .longLine => .fail (some 500) .LongHeaderLine
  | .line l rest =>
    if l = [] then .done { st with sawBlankLine := true } rest
    else
      match lineStep l st with
      | .error e => .fail none e
      | .ok st2 => headerPhase rest st2
termination_by s.length
decreasing_by
  simp only [goReadLine] at hrl
  by_cases hs : s = []
  · rw [if_pos hs] at hrl
    exact absurd hrl (by simp)
  · rw [if_neg hs] at hrl
    by_cases h1 : 1024 ≤ (s.takeWhile (fun c => c != '\n')).length
    · rw [if_pos h1] at hrl
      exact absurd hrl (by simp)
    · rw [if_neg h1] at hrl
      by_cases h2 : (s.takeWhile (fun c => c != '\n')).length = s.length
      · rw [if_pos h2] at hrl
        have hr : rest = [] := (ReadLineRes.line.injEq _ _ _ _ ▸ hrl).2.symm
        rw [hr]
        simp only [List.length_nil]
        exact List.length_pos.mpr hs
      · rw [if_neg h2] at hrl
        have hr : rest =
            s.drop ((s.takeWhile (fun c => c != '\n')).length + 1) :=
          ((ReadLineRes.line.injEq _ _ _ _).mp hrl).2.symm
        rw [hr]
        simp only [List.length_drop]
        have := List.length_pos.mpr hs
        omega

/-- The decisions of `writeResponse` after the header loop ends normally:
the `NoHeaders` check, the `Location` default of 302, the missing
`Content-Type` failure, the default of 200, then committing headers and
status and copying the body. -/
def finishResponse (st : HState) (rest : List Char) : CgiResult :=
  if st.headerLines = 0 ∨ st.sawBlankLine = false then
    .fail (some 500) .NoHeaders
  else
    let st1 := if headerGet st.headers locationKey ≠ [] ∧ st.statusCode = 0
      then { st with statusCode := 302 } else st
    if st1.statusCode = 0 ∧ headerGet st1.headers contentTypeKey = [] then
      .fail (some 500) .MissingContentType
    else
      let st2 := if st1.statusCode = 0 then { st1 with statusCode := 200 }
        else st1
      .ok st2.statusCode st2.headers rest

/-- `ResponsePipe.writeResponse` on a pure stdout stream. -/
def writeResponse (s : List Char) : CgiResult :=
  match headerPhase s initHState with
  | .fail sink e => .fail sink e
  | .done st rest => finishResponse st rest

/-! ## Request writer (`client.go`, `client.writeRequest`)

The connection writes and the stdin reads are I/O; their outcomes are an
explicit environment, and `writeRequest` returns the error it reports plus
the trace of records it attempts to write (at the granularity of the steps
of the Go function). -/

/-- Outcome of one `req.Stdin.Read`: success, `io.EOF` (treated as success
by the loop), or a failing read. -/
inductive StdinReadErr where
  | ok
  | eofMark
  | failRead (n : Nat)
deriving DecidableEq, Repr

/-- The environment of one `writeRequest` run: whether each connection write
fails (`none` = success, `some n` = error n), whether a stdin source is
present, and for each stdin loop iteration the read result `(count, read
error)` and the error of that iteration's stream write.  An exhausted
`stdinSteps` list behaves as a reader at EOF (`count = 0`).  `abortErr` is
the outcome of the deferred `writeAbortRequest`, which the source discards
(`_ = c.conn.writeAbortRequest(reqID)`). -/
structure WriteEnv where
  beginErr : Option Nat
  pairsErr : Option Nat
  hasStdin : Bool
  stdinSteps : List (Nat × StdinReadErr × Option Nat)
  closeErr : Option Nat
  abortErr : Option Nat
deriving DecidableEq, Repr

/-- The wire-visible steps of `writeRequest`: the BeginRequest record, the
Params stream, one stdin chunk, the empty Stdin terminator
(`stdinWriter.Close`), and the AbortRequest record. -/
inductive WEvent where
  | begin (id : Nat)
  | params (id : Nat)
  | stdinChunk (id count : Nat)
  | stdinClose (id : Nat)
  | abort (id : Nat)
deriving DecidableEq, Repr

/-- The stdin copy loop of `writeRequest`: read into the 1024-byte buffer;
`io.EOF` is cleared to nil; any other read error closes the stdin writer and
returns; `count == 0` leaves the loop; otherwise the chunk is written, and a
write error closes the stdin writer and returns. -/
def stdinLoop (id : Nat) :
    List (Nat × StdinReadErr × Option Nat) → Option Nat × List WEvent
  | [] => (none, [])
  | (count, rerr, werr) :: rest =>
    match rerr with
    | .failRead n => (some n, [.stdinClose id])
    | _ =>
      if count = 0 then (none, [])
      else
        match werr with
        | some n => (some n, [.stdinChunk id count, .stdinClose id])
        | none =>
        let t := stdinLoop id rest
        (t.1, .stdinChunk id count :: t.2)

/-- `client.writeRequest(reqID, req)`: BeginRequest, then the Params pairs,
then the stdin loop (when a stdin source exists), then `stdinWriter.Close`;
the deferred function emits AbortRequest whenever the returned error is
non-nil, discarding the abort's own error.  Result: (reported error, trace
of attempted records in order). -/
def writeRequest (env : WriteEnv) (reqID : Nat) : Option Nat × List WEvent :=
  match env.beginErr with
  | some n => (some n, [.begin reqID, .abort reqID])
  | none =>
    match env.pairsErr with
    | some n => (some n, [.begin reqID, .params reqID, .abort reqID])
    | none =>
      let stdinRes : Option Nat × List WEvent :=
        if env.hasStdin then stdinLoop reqID env.stdinSteps else (none, [])
      match stdinRes.1 with
      | some n => (some n,
          [.begin reqID, .params reqID] ++ stdinRes.2 ++ [.abort reqID])
      | none =>
        match env.closeErr with
        | some n => (some n, [.begin reqID, .params reqID] ++ stdinRes.2 ++
            [.stdinClose reqID, .abort reqID])
        | none => (none, [.begin reqID, .params reqID] ++ stdinRes.2 ++
            [.stdinClose reqID])

end FastCgi

namespace FastCgi

/-! ## Helper lemmas -/

/-- Value of the `& 7` padding trick on contents of record size. -/
theorem padLen_eq (n : Nat) : padLen n = (8 - n % 8) % 8 := by
  unfold padLen
  rw [show (7 : Nat) = 2 ^ 3 - 1 from rfl, Nat.and_pow_two_sub_one_eq_mod]
  omega

/-- A byte has its top bit set exactly when it is at least 128. -/
theorem byte_top_bit : ∀ b < 256, (b &&& 1 <<< 7 ≠ 0 ↔ 128 ≤ b) := by decide

/-- The bytes `writeRecord` emits, with the `uint` truncations discharged on
in-range arguments. -/
theorem writeRecord_eq (t id : Nat) (b : List Nat)
    (ht : t < 256) (hid : id < 65536) (hb : b.length ≤ 65535) :
    writeRecord t id b =
      [1, t, id / 256, id % 256, b.length / 256, b.length % 256,
        (8 - b.length % 8) % 8, 0] ++ b ++
        List.replicate ((8 - b.length % 8) % 8) 0 := by
  have hp := padLen_eq b.length
  simp only [writeRecord, headerBytes, headerInit]
  rw [hp]
  have e2 : t % 256 = t := Nat.mod_eq_of_lt ht
  have e3 : id % 65536 = id := Nat.mod_eq_of_lt hid
  have e5 : b.length % 65536 = b.length := Nat.mod_eq_of_lt (by omega)
  simp only [e2, e3, e5]
  have e4 : id / 256 % 256 = id / 256 := Nat.mod_eq_of_lt (by omega)
  have e6 : b.length / 256 % 256 = b.length / 256 := Nat.mod_eq_of_lt (by omega)
  have e7 : (8 - b.length % 8) % 8 % 256 = (8 - b.length % 8) % 8 :=
    Nat.mod_eq_of_lt (by omega)
  have e1 : (1 : Nat) % 256 = 1 := by norm_num
  simp only [e1, e4, e6, e7, Nat.zero_mod]

/-- Setting bit 31 in a value below `2 ^ 31` adds `2 ^ 31`. -/
theorem lor_bit31 (n : Nat) (h : n < 2 ^ 31) : n ||| 1 <<< 31 = n + 2 ^ 31 := by
  have h1 := Nat.mul_add_lt_is_or (i := 31) h 1
  rw [Nat.mul_one] at h1
  have h2 : (1 : Nat) <<< 31 = 2 ^ 31 := by
    rw [Nat.shiftLeft_eq, Nat.one_mul]
  rw [h2, Nat.lor_comm]
  omega

/-- Masking with `2 ^ 31 - 1` is reduction modulo `2 ^ 31`. -/
theorem land_bit31 (n : Nat) : n &&& (2 ^ 31 - 1) = n % 2 ^ 31 :=
  Nat.and_pow_two_sub_one_eq_mod n 31

/-- Bitwise or of a low part below `2 ^ i` with a value shifted up by `i`
is plain addition. -/
theorem lor_hi_lo (i a b : Nat) (hb : b < 2 ^ i) :
    b ||| a <<< i = a * 2 ^ i + b := by
  rw [Nat.shiftLeft_eq, Nat.lor_comm]
  have h := Nat.mul_add_lt_is_or (i := i) hb a
  rw [Nat.mul_comm (2 ^ i) a] at h
  exact h.symm

/-- A nonempty list of at most `maxWrite` bytes is a single chunk. -/
theorem chunksOf_small (p : List Nat) (h0 : p ≠ []) (h : p.length ≤ maxWrite) :
    chunksOf p = [p] := by
  rw [chunksOf, dif_neg h0, List.take_of_length_le h, List.drop_eq_nil_of_le h,
    chunksOf, dif_pos rfl]

/-- One `bufio` write keeps the invariant: every emitted record body is full
(`maxWrite` bytes), the buffer stays within capacity, and bytes are
conserved — provided the write itself is at most `maxWrite` bytes. -/
theorem bufioWrite_inv (buf p : List Nat)
    (hp : p.length ≤ maxWrite) (hbuf : buf.length ≤ maxWrite) :
    (∀ c ∈ (bufioWrite buf p).1, c.length = maxWrite) ∧
    (bufioWrite buf p).2.length ≤ maxWrite ∧
    buf.length + p.length =
      maxWrite * (bufioWrite buf p).1.length + (bufioWrite buf p).2.length := by
  unfold bufioWrite
  by_cases h1 : p.length ≤ maxWrite - buf.length
  · rw [if_pos h1]
    simp only [List.not_mem_nil, false_implies, implies_true, true_and,
      List.length_nil, List.length_append]
    omega
  · rw [if_neg h1]
    have hbufpos : buf.length ≠ 0 := by omega
    rw [if_neg hbufpos]
    have hn : maxWrite - buf.length ≤ p.length := by omega
    have hrest : (p.drop (maxWrite - buf.length)).length ≤ maxWrite := by
      simp only [List.length_drop]
      omega
    rw [if_pos hrest]
    have htake : (p.take (maxWrite - buf.length)).length = maxWrite - buf.length := by
      simp only [List.length_take]
      omega
    refine ⟨?_, hrest, ?_⟩
    · intro c hc
      simp only [List.mem_singleton] at hc
      subst hc
      simp only [List.length_append, htake]
      omega
    · simp only [List.length_singleton, List.length_append, htake,
        List.length_drop]
      omega

/-- The invariant of `bufioWrite_inv` carried over a whole sequence of
writes. -/
theorem runWrites_inv (ws : List (List Nat)) (buf : List Nat)
    (hw : ∀ w ∈ ws, w.length ≤ maxWrite) (hbuf : buf.length ≤ maxWrite) :
    (∀ c ∈ (runWrites ws buf).1, c.length = maxWrite) ∧
    (runWrites ws buf).2.length ≤ maxWrite ∧
    buf.length + (ws.map List.length).sum =
      maxWrite * (runWrites ws buf).1.length + (runWrites ws buf).2.length := by
  induction ws generalizing buf with
  | nil =>
    simp only [runWrites, List.not_mem_nil, false_implies, implies_true,
      true_and, List.map_nil, List.sum_nil, List.length_nil]
    omega
  | cons w ws ih =>
    have hw0 : w.length ≤ maxWrite := hw w (by simp)
    have hstep := bufioWrite_inv buf w hw0 hbuf
    have hrec := ih (bufioWrite buf w).2 (fun x hx => hw x (by simp [hx]))
      hstep.2.1
    simp only [runWrites]
    refine ⟨?_, hrec.2.1, ?_⟩
    · intro c hc
      rw [List.mem_append] at hc
      rcases hc with hc | hc
      · exact hstep.1 c hc
      · exact hrec.1 c hc
    · simp only [List.map_cons, List.sum_cons, List.length_append, Nat.mul_add]
      omega

/-- Header fields of an encoded record. -/
theorem writeRecord_fields (t id : Nat) (c : List Nat)
    (ht : t < 256) (hid : id < 65536) (hc : c.length ≤ 65535) :
    recHeaderType (writeRecord t id c) = t ∧
    recHeaderId (writeRecord t id c) = id ∧
    recContentLen (writeRecord t id c) = c.length := by
  have h := writeRecord_eq t id c ht hid hc
  rw [h]
  simp only [List.cons_append, List.append_assoc, List.nil_append,
    recHeaderType, recHeaderId, recContentLen]
  refine ⟨by trivial, by omega, by omega⟩

/-- Reduction of `readSize` on a first byte with the top bit clear. -/
theorem readSize_small (b0 : Nat) (rest : List Nat)
    (hbit : ¬ b0 &&& 1 <<< 7 ≠ 0) : readSize (b0 :: rest) = (b0, 1) := by
  simp only [readSize, if_neg hbit]

/-- Reduction of `readSize` on a 4-byte-or-longer input whose first byte has
the top bit set. -/
theorem readSize_long (b0 b1 b2 b3 : Nat) (tl : List Nat)
    (hbit : b0 &&& 1 <<< 7 ≠ 0) :
    readSize (b0 :: b1 :: b2 :: b3 :: tl) =
      ((b3 ||| b2 <<< 8 ||| b1 <<< 16 ||| b0 <<< 24) &&& (2 ^ 31 - 1), 4) := by
  simp only [readSize, if_pos hbit]

/-- The errors of `lineStep` are the bogus-line and bogus-status ones. -/
theorem lineStep_error_ne (l : List Char) (st : HState) (e : CgiError)
    (h : lineStep l st = .error e) :
    e = .BogusHeader ∨ e = .BogusStatusShort ∨ e = .BogusStatus := by
  simp only [lineStep] at h
  rcases hs : splitFirstColon l with _ | ⟨rawName, rawVal⟩
  · simp only [hs] at h
    simp only [Except.error.injEq] at h
    exact Or.inl h.symm
  · simp only [hs] at h
    by_cases hn : trimSpace rawName = statusKey
    · rw [if_pos hn] at h
      by_cases hlen : (trimSpace rawVal).length < 3
      · rw [if_pos hlen] at h
        simp only [Except.error.injEq] at h
        exact Or.inr (Or.inl h.symm)
      · rw [if_neg hlen] at h
        rcases ha : goAtoi ((trimSpace rawVal).take 3) with _ | code
        · rw [ha] at h
          simp only [Except.error.injEq] at h
          exact Or.inr (Or.inr h.symm)
        · rw [ha] at h
          exact absurd h (by simp)
    · rw [if_neg hn] at h
      exact absurd h (by simp)

/-- A line returned by `goReadLine` consumes at least one input character. -/
theorem goReadLine_line_len (s l rest : List Char)
    (h : goReadLine s = .line l rest) : rest.length < s.length := by
  simp only [goReadLine] at h
  by_cases hs : s = []
  · rw [if_pos hs] at h
    exact absurd h (by simp)
  · rw [if_neg hs] at h
    by_cases h1 : 1024 ≤ (s.takeWhile (fun c => c != '\n')).length
    · rw [if_pos h1] at h
      exact absurd h (by simp)
    · rw [if_neg h1] at h
      by_cases h2 : (s.takeWhile (fun c => c != '\n')).length = s.length
      · rw [if_pos h2] at h
        have hr : rest = [] := ((ReadLineRes.line.injEq _ _ _ _).mp h).2.symm
        rw [hr]
        simp only [List.length_nil]
        exact List.length_pos.mpr hs
      · rw [if_neg h2] at h
        have hr : rest =
            s.drop ((s.takeWhile (fun c => c != '\n')).length + 1) :=
          ((ReadLineRes.line.injEq _ _ _ _).mp h).2.symm
        rw [hr]
        simp only [List.length_drop]
        have := List.length_pos.mpr hs
        omega

/-- The header loop never fails with `NoHeaders` — that error only arises in
`finishResponse`.  (Stated with an explicit bound for the induction on the
stream length.) -/
theorem headerPhase_fail_ne (n : Nat) :
    ∀ (s : List Char) (st : HState) (sink : Option Nat) (e : CgiError),
      s.length ≤ n → headerPhase s st = .fail sink e → e ≠ .NoHeaders := by
  induction n with
  | zero =>
    intro s st sink e hle h
    have hs : s = [] := List.eq_nil_of_length_eq_zero (Nat.le_zero.mp hle)
    subst hs
    rw [headerPhase] at h
    split at h
    · exact absurd h (by simp)
    · rename_i heq
      exact absurd heq (by decide)
    · rename_i l rest heq
      have hev : goReadLine ([] : List Char) = .eof := rfl
      rw [hev] at heq
      cases heq
  | succ n ih =>
    intro s st sink e hle h
    rw [headerPhase] at h
    split at h
    · exact absurd h (by simp)
    · simp only [HeadResult.fail.injEq] at h
      rw [← h.2]
      simp
    · rename_i l rest heq
      by_cases hl : l = []
      · rw [if_pos hl] at h
        exact absurd h (by simp)
      · rw [if_neg hl] at h
        rcases hstep : lineStep l st with e' | st2
        · simp only [hstep] at h
          simp only [HeadResult.fail.injEq] at h
          rw [← h.2]
          rcases lineStep_error_ne _ _ _ hstep with he | he | he <;>
            (rw [he]; simp)
        · simp only [hstep] at h
          have hlt := goReadLine_line_len s l rest heq
          exact ih rest st2 sink e (by omega) h

/-- The header loop leaves at end of input with the state unchanged. -/
theorem headerPhase_eof (s : List Char) (st : HState)
    (h : goReadLine s = .eof) : headerPhase s st = .done st s := by
  rw [headerPhase]
  split
  · rfl
  · rename_i heq
    rw [h] at heq
    cases heq
  · rename_i l rest heq
    rw [h] at heq
    cases heq

/-- A blank line leaves the header loop with `sawBlankLine` set. -/
theorem headerPhase_blank (s : List Char) (st : HState) (rest : List Char)
    (h : goReadLine s = .line [] rest) :
    headerPhase s st = .done { st with sawBlankLine := true } rest := by
  rw [headerPhase]
  split
  · rename_i heq
    rw [h] at heq
    cases heq
  · rename_i heq
    rw [h] at heq
    cases heq
  · rename_i l r heq
    rw [h] at heq
    obtain ⟨hl, hr⟩ := (ReadLineRes.line.injEq _ _ _ _).mp heq
    rw [if_pos hl.symm, ← hr]

/-- A successfully processed header line advances the loop. -/
theorem headerPhase_step (s : List Char) (st : HState) (l rest : List Char)
    (h : goReadLine s = .line l rest) (hl : l ≠ []) (st2 : HState)
    (hstep : lineStep l st = .ok st2) :
    headerPhase s st = headerPhase rest st2 := by
  rw [headerPhase]
  split
  · rename_i heq
    rw [h] at heq
    cases heq
  · rename_i heq
    rw [h] at heq
    cases heq
  · rename_i l' r' heq
    rw [h] at heq
    obtain ⟨hl', hr'⟩ := (ReadLineRes.line.injEq _ _ _ _).mp heq
    rw [← hl', ← hr', if_neg hl]
    simp only [hstep]

/-- `finishResponse` yields the 500 + `NoHeaders` failure exactly when zero
header lines were read or no blank line was seen. -/
theorem finishResponse_noHeaders_iff (st : HState) (rest : List Char) :
    finishResponse st rest = .fail (some 500) .NoHeaders ↔
      (st.headerLines = 0 ∨ st.sawBlankLine = false) := by
  constructor
  · intro h
    by_contra hc
    rw [finishResponse, if_neg hc] at h
    split_ifs at h <;> try simp at h
    all_goals (split_ifs at h <;> simp at h)
  · intro hc
    rw [finishResponse, if_pos hc]

/-- The stdin copy loop never writes an AbortRequest record. -/
theorem stdinLoop_no_abort (id : Nat)
    (steps : List (Nat × StdinReadErr × Option Nat)) :
    WEvent.abort id ∉ (stdinLoop id steps).2 := by
  induction steps with
  | nil => simp [stdinLoop]
  | cons step rest ih =>
    obtain ⟨count, rerr, werr⟩ := step
    rcases rerr with _ | _ | n <;> simp only [stdinLoop]
    · by_cases hc : count = 0
      · rw [if_pos hc]
        simp
      · rw [if_neg hc]
        rcases werr with _ | n
        · intro hmem
          rcases List.mem_cons.mp hmem with h1 | h1
          · cases h1
          · exact ih h1
        · simp
    · by_cases hc : count = 0
      · rw [if_pos hc]
        simp
      · rw [if_neg hc]
        rcases werr with _ | n
        · intro hmem
          rcases List.mem_cons.mp hmem with h1 | h1
          · cases h1
          · exact ih h1
        · simp
    · simp

end FastCgi

namespace FastCgi

/-! ## Claim theorems -/

/-- C1: `writeRecord(type, id, body)` with `len(body) ≤ 65535` emits the
8-byte big-endian header `[1, type, id_hi, id_lo, len_hi, len_lo, pad, 0]`
with `pad = (-len) mod 8`, hence `(len + pad) % 8 = 0`, followed by the body
and exactly `pad` zero padding bytes. -/
theorem writeRecord_framing (t id : Nat) (b : List Nat)
    (ht : t < 256) (hid : id < 65536) (hb : b.length ≤ 65535) :
    writeRecord t id b =
      [1, t, id / 256, id % 256, b.length / 256, b.length % 256,
        (8 - b.length % 8) % 8, 0] ++ b ++
        List.replicate ((8 - b.length % 8) % 8) 0 ∧
    (b.length + (8 - b.length % 8) % 8) % 8 = 0 := by
  exact ⟨writeRecord_eq t id b ht hid hb, by omega⟩

/-- C1 witness at `type = 5`, `id = 1`, `body = [10, 20, 30]`. -/
theorem writeRecord_framing_w :
    writeRecord 5 1 [10, 20, 30] =
      [1, 5, 0, 1, 0, 3, 5, 0] ++ [10, 20, 30] ++ List.replicate 5 0 ∧
    (3 + 5) % 8 = 0 := by
  have h := writeRecord_framing 5 1 [10, 20, 30] (by decide) (by decide) (by decide)
  simpa using h

/-- C2: round trip of the name/value size codec.  A size up to 127 encodes
as the single byte itself and reads back as `(size, 1)`; a size in
`[128, 2^31-1]` encodes as 4 big-endian bytes whose first byte has the top
bit set and reads back as `(size, 4)`; `readSize` yields `(0, 0)` on empty
input and on an input shorter than 4 bytes whose first byte has the top bit
set. -/
theorem sizeCodec_roundTrip (size : Nat) (hs : size < 2 ^ 31) :
    (size ≤ 127 →
      encodeSize size = [size] ∧ readSize (encodeSize size) = (size, 1)) ∧
    (128 ≤ size →
      (encodeSize size).length = 4 ∧
      (∃ b0 r, encodeSize size = b0 :: r ∧ 128 ≤ b0 ∧ b0 < 256) ∧
      readSize (encodeSize size) = (size, 4)) ∧
    readSize [] = (0, 0) ∧
    (∀ b0 rest, b0 &&& 1 <<< 7 ≠ 0 → rest.length < 3 →
      readSize (b0 :: rest) = (0, 0)) := by
  refine ⟨?_, ?_, rfl, ?_⟩
  · intro h127
    have he : encodeSize size = [size] := by
      unfold encodeSize
      rw [if_neg (by omega)]
      rw [Nat.mod_eq_of_lt (show size < 256 by omega)]
    have hbit : ¬ size &&& 1 <<< 7 ≠ 0 := fun hc =>
      absurd ((byte_top_bit size (by omega)).mp hc) (by omega)
    exact ⟨he, by rw [he, readSize_small size [] hbit]⟩
  · intro h128
    have hlor : size ||| 1 <<< 31 = size + 2 ^ 31 := lor_bit31 size hs
    have he : encodeSize size =
        [(size + 2 ^ 31) / 2 ^ 24 % 256, (size + 2 ^ 31) / 2 ^ 16 % 256,
         (size + 2 ^ 31) / 2 ^ 8 % 256, (size + 2 ^ 31) % 256] := by
      unfold encodeSize
      rw [if_pos (by omega)]
      simp only [hlor, Nat.shiftRight_eq_div_pow]
    set s := size + 2 ^ 31 with hsdef
    have hb0 : s / 2 ^ 24 % 256 = s / 2 ^ 24 := Nat.mod_eq_of_lt (by omega)
    have hb0hi : 128 ≤ s / 2 ^ 24 := by omega
    have hb0lt : s / 2 ^ 24 < 256 := by omega
    refine ⟨by rw [he]; rfl,
      ⟨s / 2 ^ 24, _, by rw [he, hb0], by omega, by omega⟩, ?_⟩
    rw [he, hb0,
      readSize_long _ _ _ _ [] ((byte_top_bit (s / 2 ^ 24) hb0lt).mpr hb0hi)]
    have hrecon :
        s % 256 ||| (s / 2 ^ 8 % 256) <<< 8 ||| (s / 2 ^ 16 % 256) <<< 16 |||
          (s / 2 ^ 24) <<< 24 = s := by
      rw [lor_hi_lo 8 (s / 2 ^ 8 % 256) (s % 256) (by omega)]
      rw [lor_hi_lo 16 (s / 2 ^ 16 % 256) _ (by omega)]
      rw [lor_hi_lo 24 (s / 2 ^ 24) _ (by omega)]
      omega
    rw [hrecon, land_bit31]
    have hmod : s % 2 ^ 31 = size := by omega
    rw [hmod]
  · intro b0 rest hbit hlen
    match rest, hlen with
    | [], _ => simp only [readSize, if_pos hbit]
    | [b1], _ => simp only [readSize, if_pos hbit]
    | [b1, b2], _ => simp only [readSize, if_pos hbit]

/-- C2 witness at `size = 5` and `size = 200`. -/
theorem sizeCodec_roundTrip_w :
    (encodeSize 5 = [5] ∧ readSize (encodeSize 5) = (5, 1)) ∧
    readSize (encodeSize 200) = (200, 4) := by
  refine ⟨(sizeCodec_roundTrip 5 (by norm_num)).1 (by norm_num),
    ((sizeCodec_roundTrip 200 (by norm_num)).2.1 (by norm_num)).2.2⟩

/-- C3 (code bug): the pool built by `newIDs` always contains — and hands out
first — the request ID 0, which the spec reserves for management records, so
the first `Do` passes `request_id = 0` to `writeRequest`. -/
theorem idPool_hands_out_zero (limit : Nat) :
    (idPoolIDs limit).head? = some 0 ∧ 0 ∈ idPoolIDs limit := by
  have h : 0 < (clampLimit limit - 1) % 65536 + 1 := by omega
  constructor
  · unfold idPoolIDs
    rw [List.range_succ_eq_map]
    rfl
  · unfold idPoolIDs
    exact List.mem_range.mpr h

/-- C4 (amended): pushing writes of at most 65535 bytes each through the
buffered stream writer and closing it yields `⌈N/65535⌉` data records plus
one empty terminator record, every body at most 65535 bytes, and all
records carry the writer's `(type, id)`; the last record has content
length 0. -/
theorem streamWriter_record_count (recType reqID : Nat)
    (writes : List (List Nat))
    (hw : ∀ w ∈ writes, w.length ≤ maxWrite)
    (ht : recType < 256) (hid : reqID < 65536) :
    (writerRun writes).length =
      ((writes.map List.length).sum + (maxWrite - 1)) / maxWrite + 1 ∧
    (writerRun writes).getLast? = some [] ∧
    (∀ c ∈ writerRun writes, c.length ≤ maxWrite) ∧
    (∀ r ∈ streamRecords recType reqID writes,
      recHeaderType r = recType ∧ recHeaderId r = reqID ∧
        recContentLen r ≤ maxWrite) ∧
    (streamRecords recType reqID writes).getLast? =
      some (writeRecord recType reqID []) := by
  have hinv := runWrites_inv writes [] hw (by simp)
  set k := (runWrites writes []).1 with hk
  set b := (runWrites writes []).2 with hbdef
  have hshape : writerRun writes =
      (k ++ (if b.length = 0 then [] else [b])) ++ [[]] := by
    simp only [writerRun, bufWriterClose, ← hk, ← hbdef, List.append_assoc]
  have hmemle : ∀ c ∈ writerRun writes, c.length ≤ maxWrite := by
    intro c hc
    rw [hshape, List.mem_append, List.mem_append] at hc
    rcases hc with (hc | hc) | hc
    · exact (hinv.1 c hc).le
    · rcases Nat.eq_zero_or_pos b.length with hb0 | hb0
      · rw [if_pos hb0] at hc
        exact absurd hc (List.not_mem_nil c)
      · rw [if_neg (by omega)] at hc
        rw [List.mem_singleton] at hc
        subst hc
        exact hinv.2.1
    · rw [List.mem_singleton] at hc
      subst hc
      exact Nat.zero_le _
  refine ⟨?_, ?_, hmemle, ?_, ?_⟩
  · rw [hshape]
    simp only [List.length_append, List.length_singleton]
    have hsum := hinv.2.2
    simp only [List.length_nil, Nat.zero_add] at hsum
    rcases Nat.eq_zero_or_pos b.length with hb0 | hb0
    · rw [if_pos hb0]
      simp only [List.length_nil, maxWrite] at *
      omega
    · rw [if_neg (by omega)]
      have hble := hinv.2.1
      simp only [List.length_singleton, maxWrite] at *
      omega
  · rw [hshape, List.getLast?_concat]
  · intro r hr
    simp only [streamRecords, List.mem_map] at hr
    obtain ⟨c, hc, hrc⟩ := hr
    have hcle : c.length ≤ 65535 := by
      have := hmemle c hc
      simpa [maxWrite] using this
    have hf := writeRecord_fields recType reqID c ht hid hcle
    rw [← hrc]
    exact ⟨hf.1, hf.2.1, by rw [hf.2.2]; simpa [maxWrite] using hcle⟩
  · simp only [streamRecords, hshape, List.map_append, List.map_cons,
      List.map_nil]
    rw [List.getLast?_concat]

/-- C4 witness: one 3-byte write then close gives one data record and the
terminator. -/
theorem streamWriter_record_count_w :
    (writerRun [[1, 2, 3]]).length = 2 ∧
    (writerRun [[1, 2, 3]]).getLast? = some [] := by
  have h := streamWriter_record_count 5 9 [[1, 2, 3]] (by decide)
    (by norm_num) (by norm_num)
  refine ⟨?_, h.2.1⟩
  rw [h.1]
  norm_num [maxWrite]

/-- Splitting of the oversized 65536-byte direct write into a full record
body and a 1-byte remainder. -/
theorem cex_chunks : chunksOf (List.replicate 65536 (0 : Nat)) =
    [List.replicate 65535 0, List.replicate 1 0] := by
  have hne : List.replicate 65536 (0 : Nat) ≠ [] :=
    List.length_pos.mp (by rw [List.length_replicate]; norm_num)
  have hne1 : List.replicate 1 (0 : Nat) ≠ [] :=
    List.length_pos.mp (by rw [List.length_replicate]; norm_num)
  rw [chunksOf, dif_neg hne]
  rw [List.take_replicate, List.drop_replicate]
  rw [show min maxWrite 65536 = 65535 from by rw [maxWrite]; omega]
  rw [show 65536 - maxWrite = 1 from by rw [maxWrite]]
  rw [chunksOf_small _ hne1 (by rw [List.length_replicate, maxWrite]; norm_num)]

/-- The 65536-byte write goes straight through the empty buffer. -/
theorem cex_bufA : bufioWrite [] (List.replicate 65536 (0 : Nat)) =
    ([List.replicate 65535 0, List.replicate 1 0], []) := by
  unfold bufioWrite
  rw [if_neg (by rw [List.length_replicate, List.length_nil, maxWrite]; omega),
    if_pos List.length_nil, cex_chunks]

/-- The 65534-byte write is buffered whole. -/
theorem cex_bufB : bufioWrite [] (List.replicate 65534 (0 : Nat)) =
    ([], List.replicate 65534 0) := by
  unfold bufioWrite
  rw [if_pos (by rw [List.length_replicate, List.length_nil, maxWrite]; omega),
    List.nil_append]

/-- Both writes in sequence: two bodies emitted, 65534 bytes buffered. -/
theorem cex_run : runWrites [List.replicate 65536 (0 : Nat),
    List.replicate 65534 0] [] =
    ([List.replicate 65535 0, List.replicate 1 0],
      List.replicate 65534 0) := by
  simp only [runWrites, cex_bufA, cex_bufB, List.nil_append, List.append_nil]

/-- The run of the two writes plus close emits 4 records in total. -/
theorem cex_len :
    (writerRun [List.replicate 65536 (0 : Nat),
      List.replicate 65534 0]).length = 4 := by
  rw [writerRun, cex_run]
  simp only [bufWriterClose, List.length_replicate]
  rw [if_neg (by norm_num)]
  simp only [List.length_append, List.length_cons, List.length_nil]

/-- The two writes total 131070 bytes. -/
theorem cex_sum : ([List.replicate 65536 (0 : Nat),
    List.replicate 65534 0].map List.length).sum = 131070 := by
  simp only [List.map_cons, List.map_nil, List.length_replicate,
    List.sum_cons, List.sum_nil]
  norm_num

/-- C4 counterexample: a 65536-byte write bypasses the buffer and splits on
its own, so following it with a 65534-byte write emits 3 data records plus
the terminator (4 records), where the claimed count `⌈N/65535⌉ + 1` is 3. -/
theorem streamWriter_count_cex :
    (writerRun [List.replicate 65536 0, List.replicate 65534 0]).length ≠
      (([List.replicate 65536 (0 : Nat), List.replicate 65534 0].map
          List.length).sum + (maxWrite - 1)) / maxWrite + 1 := by
  rw [cex_len, cex_sum, show maxWrite = 65535 from rfl]
  omega

/-- C9: the BeginRequest record body `writeRequest` emits is the 8 bytes
`[role_hi, role_lo, 1, 0, 0, 0, 0, 0]` — the flags byte is the constant 1
(`flags & 1` with `flags = 1`), independent of `Request.KeepConn`. -/
theorem beginRequest_flags (req : Request) (reqID : Nat) :
    writeRequestBegin req reqID =
      writeRecord typeBeginRequest reqID
        [req.Role % 65536 / 256, req.Role % 256, 1, 0, 0, 0, 0, 0] ∧
    (beginRequestBody (req.Role % 65536) 1).length = 8 ∧
    (∀ kc, writeRequestBegin { req with KeepConn := kc } reqID =
      writeRequestBegin req reqID) := by
  refine ⟨?_, rfl, fun kc => rfl⟩
  have h1 : req.Role % 65536 / 256 % 256 = req.Role % 65536 / 256 :=
    Nat.mod_eq_of_lt (by omega)
  have h2 : req.Role % 65536 % 256 = req.Role % 256 := by omega
  have h3 : 1 &&& 1 = 1 := rfl
  rw [writeRequestBegin, beginRequestBody, h1, h2, h3]

/-- C10: whenever `record.read` succeeds, the decoded header satisfies
`ContentLength + PaddingLength ≤ 65535 + 255` (the scratch buffer size), and
`content()` exposes exactly the first `ContentLength` bytes that follow the
header, with the padding consumed but not exposed. -/
theorem recordRead_bounds (input : List Nat) (h : Header)
    (content rest : List Nat)
    (hb : ∀ x ∈ input, x < 256)
    (hr : recordRead input = .ok (h, content, rest)) :
    h.ContentLength + h.PaddingLength ≤ maxWrite + maxPad ∧
    content.length = h.ContentLength ∧
    content = (input.drop 8).take h.ContentLength ∧
    rest = (input.drop 8).drop (h.ContentLength + h.PaddingLength) := by
  rcases input with _ | ⟨b0, input⟩
  · simp [recordRead, parseHeader] at hr
  rcases input with _ | ⟨b1, input⟩
  · simp [recordRead, parseHeader] at hr
  rcases input with _ | ⟨b2, input⟩
  · simp [recordRead, parseHeader] at hr
  rcases input with _ | ⟨b3, input⟩
  · simp [recordRead, parseHeader] at hr
  rcases input with _ | ⟨b4, input⟩
  · simp [recordRead, parseHeader] at hr
  rcases input with _ | ⟨b5, input⟩
  · simp [recordRead, parseHeader] at hr
  rcases input with _ | ⟨b6, input⟩
  · simp [recordRead, parseHeader] at hr
  rcases input with _ | ⟨b7, input⟩
  · simp [recordRead, parseHeader] at hr
  simp only [recordRead, parseHeader] at hr
  split at hr
  · exact absurd hr (by simp)
  · split at hr
    · exact absurd hr (by simp)
    · rename_i hver hlen
      simp only [Except.ok.injEq, Prod.mk.injEq] at hr
      obtain ⟨hh, hcnt, hrst⟩ := hr
      subst hh
      dsimp only at hlen hcnt hrst ⊢
      have hb4 : b4 < 256 := hb b4 (by simp)
      have hb5 : b5 < 256 := hb b5 (by simp)
      have hb6 : b6 < 256 := hb b6 (by simp)
      refine ⟨by simp only [maxWrite, maxPad]; omega, ?_, ?_, ?_⟩
      · rw [← hcnt, List.length_take]
        omega
      · rw [← hcnt]
        rfl
      · rw [← hrst]
        rfl

/-- C5: a header line whose name — after splitting on the first `:` and
trimming — is exactly `Status` sets the status from the first three
characters of the trimmed value: a shorter value fails `BogusStatusShort`,
a non-numeric prefix fails `BogusStatus`, otherwise the parsed code is
stored.  The ASCII hypothesis makes Go's byte positions coincide with the
modelled rune positions. -/
theorem cgi_statusLine (line : List Char) (st : HState)
    (rawName rawVal : List Char)
    (hascii : ∀ c ∈ line, c.toNat < 128)
    (hsplit : splitFirstColon line = some (rawName, rawVal))
    (hname : trimSpace rawName = statusKey) :
    lineStep line st =
      (if (trimSpace rawVal).length < 3 then
        Except.error CgiError.BogusStatusShort
       else
         match goAtoi ((trimSpace rawVal).take 3) with
         | none => Except.error CgiError.BogusStatus
         | some code =>
           Except.ok { st with statusCode := code
                               headerLines := st.headerLines + 1 }) := by
  simp only [lineStep, hsplit]
  rw [if_pos hname]

/-- C5 witness on the line `Status: 404 Not Found`. -/
theorem cgi_statusLine_w :
    lineStep ("Status: 404 Not Found".toList) initHState =
      Except.ok ⟨404, [], 1, false⟩ := by
  rw [cgi_statusLine ("Status: 404 Not Found".toList) initHState
    ("Status".toList) (" 404 Not Found".toList) (by decide) (by decide)
    (by decide)]
  rfl

/-- C6 counterexample: the stream `Location:\n\n` accumulates a `Location`
header (with empty value) and parses no `Status`, yet the committed status
is 500 with a `MissingContentType` failure, not 302 — `headers.Get`
returns the empty string for the empty-valued header. -/
theorem cgi_location_empty_cex :
    headerPhase ("Location:\n\n".toList) initHState =
      .done ⟨0, [(locationKey, [[]])], 1, true⟩ [] ∧
    writeResponse ("Location:\n\n".toList) =
      .fail (some 500) CgiError.MissingContentType := by
  have h1 : goReadLine ("Location:\n\n".toList) =
      .line ("Location:".toList) ("\n".toList) := by decide
  have h2 : lineStep ("Location:".toList) initHState =
      Except.ok ⟨0, [(locationKey, [[]])], 1, false⟩ := by rfl
  have h3 : goReadLine ("\n".toList) = .line [] [] := by decide
  have hph : headerPhase ("Location:\n\n".toList) initHState =
      .done ⟨0, [(locationKey, [[]])], 1, true⟩ [] := by
    rw [headerPhase_step _ _ _ _ h1 (by decide) _ h2,
      headerPhase_blank _ _ _ h3]
  refine ⟨hph, ?_⟩
  rw [writeResponse, hph]
  decide

/-- C6 (amended): after a header section of at least one line ended by a
blank line — an explicit `Status` is committed as-is with the accumulated
headers; otherwise, when `headers.Get("Location")` is non-empty (a
`Location` header with a non-empty first value), the status defaults to
302; otherwise a missing `Content-Type` makes the sink receive 500 with a
`MissingContentType` failure; otherwise the status defaults to 200.  In
every committed case the accumulated headers (duplicates appended by
`headerAdd`, never overwritten) and the status reach the sink together with
the body. -/
theorem cgi_finish_defaults (st : HState) (rest : List Char)
    (hlines : 1 ≤ st.headerLines) (hblank : st.sawBlankLine = true) :
    (st.statusCode ≠ 0 →
      finishResponse st rest = .ok st.statusCode st.headers rest) ∧
    (st.statusCode = 0 → headerGet st.headers locationKey ≠ [] →
      finishResponse st rest = .ok 302 st.headers rest) ∧
    (st.statusCode = 0 → headerGet st.headers locationKey = [] →
      headerGet st.headers contentTypeKey = [] →
      finishResponse st rest = .fail (some 500) CgiError.MissingContentType) ∧
    (st.statusCode = 0 → headerGet st.headers locationKey = [] →
      headerGet st.headers contentTypeKey ≠ [] →
      finishResponse st rest = .ok 200 st.headers rest) := by
  have hguard : ¬(st.headerLines = 0 ∨ st.sawBlankLine = false) := by
    rw [hblank]
    rintro (hz | hf)
    · omega
    · cases hf
  refine ⟨?_, ?_, ?_, ?_⟩
  · intro hsc
    simp only [finishResponse]
    rw [if_neg hguard,
      if_neg (show ¬(headerGet st.headers locationKey ≠ [] ∧
        st.statusCode = 0) from fun hx => hsc hx.2)]
    rw [if_neg (show ¬(st.statusCode = 0 ∧
        headerGet st.headers contentTypeKey = []) from fun hx => hsc hx.1)]
    rw [if_neg hsc]
  · intro hsc hloc
    simp only [finishResponse]
    rw [if_neg hguard,
      if_pos (show headerGet st.headers locationKey ≠ [] ∧
        st.statusCode = 0 from ⟨hloc, hsc⟩)]
    dsimp only
    rw [if_neg (show ¬((302 : Int) = 0 ∧
        headerGet st.headers contentTypeKey = []) from fun hx => by
        cases hx.1)]
    rw [if_neg (show ¬((302 : Int) = 0) from by decide)]
  · intro hsc hloc hct
    simp only [finishResponse]
    rw [if_neg hguard,
      if_neg (show ¬(headerGet st.headers locationKey ≠ [] ∧
        st.statusCode = 0) from fun hx => hx.1 hloc)]
    rw [if_pos ⟨hsc, hct⟩]
  · intro hsc hloc hct
    simp only [finishResponse]
    rw [if_neg hguard,
      if_neg (show ¬(headerGet st.headers locationKey ≠ [] ∧
        st.statusCode = 0) from fun hx => hx.1 hloc)]
    rw [if_neg (show ¬(st.statusCode = 0 ∧
        headerGet st.headers contentTypeKey = []) from fun hx => hct hx.2)]
    rw [if_pos hsc]

/-- C6 witness: a one-header state with `Content-Type` present and no
explicit status commits 200 with the accumulated headers. -/
theorem cgi_finish_defaults_w :
    finishResponse ⟨0, [(contentTypeKey, ["text/html".toList])], 1, true⟩ [] =
      .ok 200 [(contentTypeKey, ["text/html".toList])] [] := by
  have h := cgi_finish_defaults
    ⟨0, [(contentTypeKey, ["text/html".toList])], 1, true⟩ []
    (by decide) (by decide)
  exact h.2.2.2 (by decide) (by decide) (by decide)

/-- C7: `writeResponse` writes 500 and fails `NoHeaders` exactly when the
header loop ends normally (no line error) with either no blank line seen
before the stream was exhausted, or a blank line preceded by zero header
lines; with at least one header line and a blank line seen, `NoHeaders` is
never raised. -/
theorem cgi_noHeaders_iff (s : List Char) :
    writeResponse s = .fail (some 500) CgiError.NoHeaders ↔
      ∃ st rest, headerPhase s initHState = .done st rest ∧
        (st.headerLines = 0 ∨ st.sawBlankLine = false) := by
  rcases hph : headerPhase s initHState with ⟨sink, e⟩ | ⟨st, rest⟩
  · rw [writeResponse, hph]
    constructor
    · intro h
      simp only [CgiResult.fail.injEq] at h
      exact absurd h.2
        (headerPhase_fail_ne s.length s initHState sink e (by omega) hph)
    · rintro ⟨st, rest, hdone, _⟩
      cases hdone
  · rw [writeResponse, hph]
    constructor
    · intro h
      exact ⟨st, rest, rfl, (finishResponse_noHeaders_iff st rest).mp h⟩
    · rintro ⟨st', rest', hdone, hcond⟩
      obtain ⟨hst, hrest⟩ := (HeadResult.done.injEq _ _ _ _).mp hdone
      show finishResponse st rest = CgiResult.fail (some 500) CgiError.NoHeaders
      rw [finishResponse_noHeaders_iff st rest, hst]
      exact hcond

/-- C8: whenever any step of `writeRequest` fails, the trace ends with the
best-effort AbortRequest for the same request ID; when every step succeeds
no AbortRequest appears; and neither the reported error nor the trace
depends on the outcome of the abort write itself (the source discards it). -/
theorem writeRequest_abort (env : WriteEnv) (reqID : Nat) :
    ((writeRequest env reqID).1 = none →
      WEvent.abort reqID ∉ (writeRequest env reqID).2) ∧
    (∀ e, (writeRequest env reqID).1 = some e →
      (writeRequest env reqID).2.getLast? = some (WEvent.abort reqID)) ∧
    (∀ x, writeRequest { env with abortErr := x } reqID =
      writeRequest env reqID) := by
  have hnomem : WEvent.abort reqID ∉
      (if env.hasStdin then stdinLoop reqID env.stdinSteps
        else ((none : Option Nat), ([] : List WEvent))).2 := by
    by_cases h : env.hasStdin
    · rw [if_pos h]
      exact stdinLoop_no_abort reqID env.stdinSteps
    · rw [if_neg h]
      simp
  refine ⟨?_, ?_, fun x => rfl⟩
  · intro hnone hmem
    rcases hb : env.beginErr with _ | n
    · rcases hp : env.pairsErr with _ | n
      · simp only [writeRequest, hb, hp] at hnone hmem
        rcases hs1 : (if env.hasStdin then stdinLoop reqID env.stdinSteps
            else ((none : Option Nat), ([] : List WEvent))).1 with _ | n
        · rcases hc : env.closeErr with _ | n
          · simp only [hs1, hc] at hmem
            simp only [List.mem_append, List.mem_cons, List.mem_singleton,
              List.not_mem_nil, or_false] at hmem
            rcases hmem with ((h1 | h1) | h1) | h1
            · cases h1
            · cases h1
            · exact hnomem h1
            · cases h1
          · simp only [hs1, hc] at hnone
            cases hnone
        · simp only [hs1] at hnone
          cases hnone
      · simp only [writeRequest, hb, hp] at hnone
        cases hnone
    · simp only [writeRequest, hb] at hnone
      cases hnone
  · intro e he
    rcases hb : env.beginErr with _ | n
    · rcases hp : env.pairsErr with _ | n
      · simp only [writeRequest, hb, hp]
        rcases hs1 : (if env.hasStdin then stdinLoop reqID env.stdinSteps
            else ((none : Option Nat), ([] : List WEvent))).1 with _ | n
        · rcases hc : env.closeErr with _ | n
          · simp only [writeRequest, hb, hp, hs1, hc] at he
            cases he
          · rw [List.getLast?_append_of_ne_nil _ (by simp)]
            rfl
        · rw [List.getLast?_append_of_ne_nil _ (by simp)]
          rfl
      · simp only [writeRequest, hb, hp]
        rfl
    · simp only [writeRequest, hb]
      rfl

/-- C10 witness at a concrete 16-byte record with content `[10, 20]` and six
padding bytes. -/
theorem recordRead_bounds_w :
    ((⟨1, 6, 1, 2, 6, 0⟩ : Header).ContentLength +
        (⟨1, 6, 1, 2, 6, 0⟩ : Header).PaddingLength ≤ maxWrite + maxPad) ∧
      ([10, 20] : List Nat).length = (⟨1, 6, 1, 2, 6, 0⟩ : Header).ContentLength := by
  have h := recordRead_bounds [1, 6, 0, 1, 0, 2, 6, 0, 10, 20, 0, 0, 0, 0, 0, 0]
    ⟨1, 6, 1, 2, 6, 0⟩ [10, 20] [] (by decide) rfl
  exact ⟨h.1, h.2.1⟩

end FastCgi
